import Mathlib

/-!
# Planogram shelf-space allocation engine: formal model

A shallow embedding of the core of the Planogram_Project repository
(src/models/product.py, src/models/shelf.py, src/models/store.py,
src/optimization/base_optimizer.py, src/optimization/product_optimizer.py,
src/optimization/bundle_optimizer.py), together with proofs and refutations
of the stated behavioural claims.

Python floats are modelled as rationals (ℚ), Python ints as ℤ/ℕ, Python
lists as Lean lists.  Python `sorted`/`list.sort` are stable; they are
modelled by the stable insertion sort `stableSortBy` below.
-/

/- Batteries marks the rational-number operations `@[irreducible]`, which
blocks `decide`/`rfl` evaluation of the concrete engine runs below; restore
the default reducibility for this file (the kernel is unaffected either
way). -/
attribute [local semireducible] Rat.add Rat.mul Rat.sub Rat.inv

namespace Planogram

/-! ## Stable sorting (model of Python's stable `sorted` / `list.sort`)

`keep y x = true` means: `y`, already in the sorted output and originating
later in the input, must stay in front of the earlier-input element `x`
being inserted.  For an ascending sort by key `k` one takes
`keep y x := k y < k x`; for a descending sort `keep y x := k x < k y`.
With a strict comparison, equal-key elements keep their input order,
exactly like Python's stable sorts. -/

def insertKeep (keep : α → α → Bool) (x : α) : List α → List α
  | [] => [x]
  | y :: ys => if keep y x then y :: insertKeep keep x ys else x :: y :: ys

def stableSortBy (keep : α → α → Bool) : List α → List α
  | [] => []
  | x :: xs => insertKeep keep x (stableSortBy keep xs)

/-- Python string comparison: lexicographic by code point (the built-in
`String.ltb` is opaque to kernel reduction, so it is spelled out on the
character list). -/
def charListLt : List Char → List Char → Bool
  | [], [] => false
  | [], _ :: _ => true
  | _ :: _, [] => false
  | c :: cs, d :: ds =>
    if c.toNat < d.toNat then true
    else if d.toNat < c.toNat then false
    else charListLt cs ds

def strLt (a b : String) : Bool := charListLt a.data b.data

/-! ## Specification of Python's sorts

`list.sort`/`sorted` promise exactly: the output is sorted by the key and
stable (equal-key elements keep their input order).  The two promises are
captured, for all lists, by `IsStableSortBy`: no inversion with respect to
the strict key comparison, and, for every key value, the sub-list of
elements with that key is unchanged.  This specification has a unique
solution (`sorted_stable_unique` below), which is what makes the engine's
output independent of the sort implementation. -/

/-- Ascending strict comparison on ℚ. -/
def ltQ (a b : ℚ) : Bool := decide (a < b)

/-- Descending strict comparison on ℚ (used for `reverse=True` sorts). -/
def gtQ (a b : ℚ) : Bool := decide (b < a)

/-- Python tuple comparison on a pair of strings (the grouping sort key
`(category.value, series)`). -/
def pairLt (a b : String × String) : Bool :=
  strLt a.1 b.1 || (a.1 == b.1 && strLt a.2 b.2)

/-- The sort operations the optimizer relies on, abstracted so that
determinism can be stated over every implementation meeting Python's sort
contract: a stable ascending ℚ-keyed sort, a stable descending ℚ-keyed
sort, and a stable ascending sort by a (category, series) string pair. -/
structure SortFns where
  asc : ∀ {α : Type}, (α → ℚ) → List α → List α
  desc : ∀ {α : Type}, (α → ℚ) → List α → List α
  lex2 : ∀ {α : Type}, (α → String × String) → List α → List α

/-- The model's own sorts (stable insertion sort), packaged as a
`SortFns`. -/
def pySortFns : SortFns :=
  { asc := fun key l => stableSortBy (fun y x => ltQ (key y) (key x)) l
    desc := fun key l => stableSortBy (fun y x => gtQ (key y) (key x)) l
    lex2 := fun key l => stableSortBy (fun y x => pairLt (key y) (key x)) l }

structure Product where
  product_id : String
  category : String
  series : String
  width : ℚ
  height : ℚ
  depth : ℚ
  pureqty : ℚ
  impureqty : ℚ
  attach_rate : Option ℚ
  status : String
  price : ℚ
  avg_weekly_sales : ℚ
  min_facings : ℤ
  max_facings : ℤ
  sales_velocity : ℚ
  deriving DecidableEq

def Product.total_qty (p : Product) : ℚ := p.pureqty + p.impureqty

def Product.purity_ratio (p : Product) : ℚ :=
  if p.total_qty > 0 then p.pureqty / p.total_qty else 0

/-- `Product._calculate_facing_limits`: (min_facings, max_facings)
from total quantity tiers. -/
def facingLimits (total_qty : ℚ) : ℤ × ℤ :=
  if total_qty ≥ 400 then (3, 6)
  else if total_qty ≥ 200 then (2, 4)
  else if total_qty ≥ 100 then (2, 3)
  else if total_qty ≥ 50 then (1, 2)
  else (1, 1)

/-- `Product.__post_init__`: derives `total_qty`, `sales_velocity` (equal to
`total_qty` at construction), and the facing limits.  `price` and
`avg_weekly_sales` are populated by the loading layer (main.py defaults
`price` to 0 when missing). -/
def mkProduct (pid cat ser : String) (w h d pq iq aws : ℚ) : Product :=
  { product_id := pid
    category := cat
    series := ser
    width := w
    height := h
    depth := d
    pureqty := pq
    impureqty := iq
    attach_rate := none
    status := "active"
    price := 0
    avg_weekly_sales := aws
    min_facings := (facingLimits (pq + iq)).1
    max_facings := (facingLimits (pq + iq)).2
    sales_velocity := pq + iq }

/-- `Product.calculate_facings("sales_based")`. -/
def Product.calcFacingsSales (p : Product) : ℤ :=
  if p.total_qty ≥ 1000 then p.max_facings
  else if p.total_qty ≥ 600 then min 3 (p.max_facings - 1)
  else if p.total_qty ≥ 300 then min 2 (p.max_facings - 2)
  else if p.total_qty ≥ 100 then 2
  else p.min_facings

/-- `Product.calculate_facings("purity_weighted")`. -/
def Product.calcFacingsPurity (p : Product) : ℤ :=
  let base := p.calcFacingsSales
  if p.purity_ratio ≥ 8/10 then min p.max_facings (base + 1)
  else if p.purity_ratio ≤ 3/10 then max p.min_facings (base - 1)
  else base

/-- `Product.calculate_facings("balanced")`; Python `//` is floor division,
hence `Int.fdiv`. -/
def Product.calcFacingsBalanced (p : Product) : ℤ :=
  max p.min_facings (Int.fdiv (p.calcFacingsSales + p.calcFacingsPurity) 2)

/-! ## Shelf and placements (src/models/shelf.py) -/

structure ShelfPosition where
  product_id : String
  x_start : ℚ
  x_end : ℚ
  facings : ℤ
  deriving DecidableEq

def ShelfPosition.width (pos : ShelfPosition) : ℚ := pos.x_end - pos.x_start

/-- `utilization` is a stored attribute, recomputed only where the source
calls `update_utilization` (bare `positions.remove` calls leave it stale). -/
structure Shelf where
  shelf_id : ℤ
  shelf_type : String
  width : ℚ
  height : ℚ
  depth : ℚ
  y_position : ℚ
  eye_level_score : ℚ
  positions : List ShelfPosition
  utilization : ℚ
  deriving DecidableEq

def Shelf.usedWidth (s : Shelf) : ℚ := (s.positions.map ShelfPosition.width).sum

/-- `Shelf.get_available_width`: shelf width minus placement widths minus a
1cm gap per placement. -/
def Shelf.get_available_width (s : Shelf) : ℚ :=
  if s.positions.isEmpty then s.width
  else s.width - s.usedWidth - (s.positions.length : ℚ)

/-- `Shelf.can_fit_product`. -/
def Shelf.can_fit_product (s : Shelf) (p : Product) (facings : ℤ) : Bool :=
  if p.height > s.height then false
  else if p.depth > s.depth then false
  else decide (p.width * (facings : ℚ) ≤ s.get_available_width)

/-- `Shelf.update_utilization`: gaps counted as 2cm between consecutive
placements (note: a different gap model than `get_available_width`). -/
def Shelf.update_utilization (s : Shelf) : Shelf :=
  if s.positions.isEmpty then { s with utilization := 0 }
  else
    let used := s.usedWidth
    let gaps : ℚ := if s.positions.length > 1 then ((s.positions.length : ℚ) - 1) * 2 else 0
    { s with utilization := (used + gaps) / s.width * 100 }

/-- Python `max(positions, key=lambda p: p.x_end)`: first position with the
maximal `x_end` (strict `>` to replace the running maximum). -/
def maxXEndPos : List ShelfPosition → Option ShelfPosition
  | [] => none
  | p :: ps => some (ps.foldl (fun best q => if q.x_end > best.x_end then q else best) p)

/-- `Shelf.add_product` (nobody in the repository ever calls it; the engine
uses the optimizer primitives below).  `x_position = none` is the default
`None` argument. -/
def Shelf.add_product (s : Shelf) (p : Product) (facings : ℤ)
    (x_position : Option ℚ) : Bool × Shelf :=
  if !(s.can_fit_product p facings) then (false, s)
  else
    let x := match x_position with
      | some x => x
      | none =>
        match maxXEndPos s.positions with
        | some last => last.x_end + 1
        | none => 0
    let pw := p.width * (facings : ℚ)
    (true, Shelf.update_utilization
      { s with positions := s.positions ++ [⟨p.product_id, x, x + pw, facings⟩] })

/-- `Shelf.remove_product`. -/
def Shelf.remove_product (s : Shelf) (pid : String) : Bool × Shelf :=
  let kept := s.positions.filter (fun pos => pos.product_id != pid)
  if kept.length < s.positions.length then
    (true, Shelf.update_utilization { s with positions := kept })
  else (false, s)

/-- Ascending stable sort by `x_start` (Python `positions.sort(key=lambda
p: p.x_start)`). -/
def sortByXStart (l : List ShelfPosition) : List ShelfPosition :=
  stableSortBy (fun y x => decide (y.x_start < x.x_start)) l

/-- The repositioning loop of `Shelf.optimize_positions`: lay the sorted
positions out left to right from `cx` with a uniform gap. -/
def reflowFrom (gap : ℚ) : ℚ → List ShelfPosition → List ShelfPosition
  | _, [] => []
  | cx, pos :: rest =>
    let w := pos.x_end - pos.x_start
    { pos with x_start := cx, x_end := cx + w } :: reflowFrom gap (cx + w + gap) rest

/-- `Shelf.optimize_positions` (the Reflow primitive). -/
def Shelf.optimize_positions (s : Shelf) (gap : ℚ) : Shelf :=
  if s.positions.isEmpty then s
  else Shelf.update_utilization { s with positions := reflowFrom gap 0 (sortByXStart s.positions) }

/-- Python `product.min_facings or 1`: falsy (0) becomes 1. -/
def or1 (m : ℤ) : ℤ := if m = 0 then 1 else m

/-- The x position `BaseOptimizer._place_product_on_shelf` computes: after
the right edge of the rightmost placement plus `gap`, or a leading `gap`
from the shelf edge when the shelf is empty. -/
def placementSlot (gap : ℚ) (s : Shelf) : ℚ :=
  match maxXEndPos s.positions with
  | some last => last.x_end + gap
  | none => gap

/-- Committing a placement: append the new position and recompute
utilization. -/
def commitPlacement (s : Shelf) (p : Product) (facings : ℤ) (x pw : ℚ) : Shelf :=
  Shelf.update_utilization
    { s with positions := s.positions ++ [⟨p.product_id, x, x + pw, facings⟩] }

/-- The recursive call inside `_place_product_on_shelf` (retry at
`max(1, min_facings or 1)`).  In that second call the retry condition
`facings > 1 and facings > (min_facings or 1)` is always false, so the
second call never recurses again; it is this function. -/
def placeOnShelfOnce (gap : ℚ) (s : Shelf) (p : Product) (facings : ℤ) : Bool × Shelf :=
  if p.height > s.height then (false, s)
  else if p.depth > s.depth then (false, s)
  else
    let pw := p.width * (facings : ℚ)
    let x := placementSlot gap s
    if x + pw + gap > s.width then (false, s)
    else (true, commitPlacement s p facings x pw)

/-- `BaseOptimizer._place_product_on_shelf`: dimension checks, gap-aware
span check, one internal retry at the minimum facing count. -/
def place_product_on_shelf (gap : ℚ) (s : Shelf) (p : Product) (facings : ℤ) : Bool × Shelf :=
  if p.height > s.height then (false, s)
  else if p.depth > s.depth then (false, s)
  else
    let pw := p.width * (facings : ℚ)
    let x := placementSlot gap s
    if x + pw + gap > s.width then
      if facings > 1 ∧ facings > or1 p.min_facings then
        placeOnShelfOnce gap s p (max 1 (or1 p.min_facings))
      else (false, s)
    else (true, commitPlacement s p facings x pw)

/-- `ProductOptimizer._try_place_product` = `BundleOptimizer._try_place_product`:
pre-check with `can_fit_product`, falling back once to `min_facings`. -/
def try_place_product (gap : ℚ) (s : Shelf) (p : Product) (facings : ℤ) : Bool × Shelf :=
  if s.can_fit_product p facings then place_product_on_shelf gap s p facings
  else if facings > p.min_facings then
    if s.can_fit_product p p.min_facings then place_product_on_shelf gap s p p.min_facings
    else (false, s)
  else (false, s)

/-- `BaseOptimizer._reset_shelves` on one shelf. -/
def resetShelf (s : Shelf) : Shelf := Shelf.update_utilization { s with positions := [] }

def resetShelves (shs : List Shelf) : List Shelf := shs.map resetShelf

/-- `BaseOptimizer._sort_products_by_priority`: the optimization weight
dictionary with its `.get` defaults applied. -/
structure Weights where
  sales_velocity : ℚ
  attach_rate : ℚ
  new_product_priority : ℚ
  deriving DecidableEq

def priorityScore (w : Weights) (p : Product) : ℚ :=
  p.sales_velocity * w.sales_velocity
  + (match p.attach_rate with | some a => a | none => 0) * w.attach_rate
  + (if p.status == "new" then w.new_product_priority else 0)

/-- `sorted(products, key=lambda p: p.priority_score, reverse=True)`:
stable sort, descending by priority score. -/
def sort_products_by_priority (w : Weights) (products : List Product) : List Product :=
  stableSortBy (fun y x => decide (priorityScore w x < priorityScore w y)) products

/-! ## Product optimizer (src/optimization/product_optimizer.py) -/

/-- Python `next((p for p in placed if p.product_id == pid), None)`. -/
def findPlaced (placed : List Product) (pid : String) : Option Product :=
  placed.find? (fun p => p.product_id == pid)

/-- Python `list.remove`: erase the first element equal to the argument
(no-op here when absent; in every modelled call site it is present). -/
def erasePos : List ShelfPosition → ShelfPosition → List ShelfPosition
  | [], _ => []
  | q :: qs, pos => if q = pos then qs else q :: erasePos qs pos

def eraseProduct : List Product → Product → List Product
  | [], _ => []
  | q :: qs, p => if q = p then qs else q :: eraseProduct qs p

/-- Candidate collection in `_force_place_high_priority_product`: positions
whose product is found in `products_placed` with strictly lower sales
velocity than the incoming product. -/
def lowerVelocityCandidates (placed : List Product) (vNew : ℚ)
    (positions : List ShelfPosition) : List (ShelfPosition × Product) :=
  positions.filterMap (fun pos =>
    match findPlaced placed pos.product_id with
    | some q => if q.sales_velocity < vNew then some (pos, q) else none
    | none => none)

/-- `lower_velocity_positions.sort(key=lambda x: x[1].sales_velocity)`. -/
def sortCandidatesByVelocity (l : List (ShelfPosition × Product)) :
    List (ShelfPosition × Product) :=
  stableSortBy (fun y x => decide (y.2.sales_velocity < x.2.sales_velocity)) l

/-- The per-shelf candidate loop of `_force_place_high_priority_product`:
remove a candidate, try the new product at 1 facing, on failure attempt to
restore the candidate (at the end of the shelf, at its recorded facing
count) and put it back into `products_placed`. -/
def bumpLoop (gap : ℚ) (newP : Product) :
    Shelf → List Product → List (ShelfPosition × Product) → Bool × Shelf × List Product
  | s, placed, [] => (false, s, placed)
  | s, placed, (pos, q) :: rest =>
    let s1 : Shelf := { s with positions := erasePos s.positions pos }
    let placed1 := eraseProduct placed q
    match try_place_product gap s1 newP 1 with
    | (true, s2) => (true, s2, placed1)
    | (false, s2) =>
      let s3 := (try_place_product gap s2 q pos.facings).2
      bumpLoop gap newP s3 (placed1 ++ [q]) rest

/-- First phase of `_force_place_high_priority_product`: try each shelf in
store order at 1 facing. -/
def placeFirstFit (gap : ℚ) (p : Product) (facings : ℤ) : List Shelf → Option (List Shelf)
  | [] => none
  | s :: rest =>
    match try_place_product gap s p facings with
    | (true, s1) => some (s1 :: rest)
    | (false, _) =>
      match placeFirstFit gap p facings rest with
      | some rest1 => some (s :: rest1)
      | none => none

/-- Second phase: per shelf, bump out lower-velocity products. -/
def bumpShelves (gap : ℚ) (newP : Product) :
    List Shelf → List Product → Bool × List Shelf × List Product
  | [], placed => (false, [], placed)
  | s :: rest, placed =>
    let cands := sortCandidatesByVelocity
      (lowerVelocityCandidates placed newP.sales_velocity s.positions)
    match bumpLoop gap newP s placed cands with
    | (true, s1, placed1) => (true, s1 :: rest, placed1)
    | (false, s1, placed1) =>
      let r := bumpShelves gap newP rest placed1
      (r.1, s1 :: r.2.1, r.2.2)

/-- `ProductOptimizer._force_place_high_priority_product`. -/
def force_place_high_priority_product (gap : ℚ) (newP : Product)
    (shelves : List Shelf) (placed : List Product) : Bool × List Shelf × List Product :=
  match placeFirstFit gap newP 1 shelves with
  | some shelves1 => (true, shelves1, placed)
  | none => bumpShelves gap newP shelves placed

/-- default shelf, used only for out-of-range index lookups that cannot
occur for indices produced by `List.enum`. -/
def defaultShelf : Shelf :=
  { shelf_id := 0, shelf_type := "standard", width := 0, height := 0, depth := 0,
    y_position := 0, eye_level_score := 0, positions := [], utilization := 0 }

def getShelf (shs : List Shelf) (i : ℕ) : Shelf := shs.getD i defaultShelf

/-- `_optimize_by_sales` splits the shelves once into eye-level
(score ≥ 0.7) first, the rest after; the split never changes because
`eye_level_score` is immutable.  Indices into the store's shelf list. -/
def eyeFirstOrder (shelves : List Shelf) : List ℕ :=
  ((shelves.enum.filter (fun is => decide (is.2.eye_level_score ≥ 7/10))).map Prod.fst)
  ++ ((shelves.enum.filter (fun is => decide (is.2.eye_level_score < 7/10))).map Prod.fst)

/-- `sorted(all_shelves, key=lambda s: s.utilization)`: stable, ascending,
on the current utilization attributes. -/
def utilOrder (shelves : List Shelf) (idx : List ℕ) : List ℕ :=
  stableSortBy (fun j i =>
    decide ((getShelf shelves j).utilization < (getShelf shelves i).utilization)) idx

/-- Normal placement in `_optimize_by_sales`: first shelf in the given
order that accepts the product at 1 facing. -/
def tryOrderAt1 (gap : ℚ) (p : Product) (shelves : List Shelf) :
    List ℕ → Option (List Shelf)
  | [] => none
  | i :: rest =>
    match shelves.get? i with
    | none => tryOrderAt1 gap p shelves rest
    | some s =>
      match try_place_product gap s p 1 with
      | (true, s1) => some (shelves.set i s1)
      | (false, _) => tryOrderAt1 gap p shelves rest

/-- Rejection warning of `_optimize_by_sales` (the source interpolates the
product name and a formatted velocity; only the fact that exactly one
deterministic warning is appended matters here). -/
def rejectWarning (p : Product) : String := "Could not place " ++ p.product_id

/-- The placement loop of `ProductOptimizer._optimize_by_sales`. -/
def salesLoop (gap : ℚ) (eyeIdx : List ℕ) :
    List Product → List Shelf → List Product → List Product → List String →
    List Shelf × List Product × List Product × List String
  | [], shelves, placed, rejected, ws => (shelves, placed, rejected, ws)
  | p :: rest, shelves, placed, rejected, ws =>
    match tryOrderAt1 gap p shelves (utilOrder shelves eyeIdx) with
    | some shelves1 => salesLoop gap eyeIdx rest shelves1 (placed ++ [p]) rejected ws
    | none =>
      match force_place_high_priority_product gap p shelves placed with
      | (true, shelves1, placed1) =>
        salesLoop gap eyeIdx rest shelves1 (placed1 ++ [p]) rejected ws
      | (false, shelves1, placed1) =>
        salesLoop gap eyeIdx rest shelves1 placed1 (rejected ++ [p]) (ws ++ [rejectWarning p])

/-- `products.sort(key=lambda p: p.sales_velocity, reverse=True)`. -/
def sortBySalesVelocity (products : List Product) : List Product :=
  stableSortBy (fun y x => decide (x.sales_velocity < y.sales_velocity)) products

/-- `ProductOptimizer._optimize_by_sales` (shelf state, products placed,
products rejected, warnings). -/
def optimize_by_sales (gap : ℚ) (shelves : List Shelf) (products : List Product) :
    List Shelf × List Product × List Product × List String :=
  salesLoop gap (eyeFirstOrder shelves) (sortBySalesVelocity products) shelves [] [] []

/-- `ProductOptimizer.optimize` with `strategy="sales_velocity"`, entered
through `create_planogram`: shelves reset, products priority-sorted, then
the sales-velocity pass. -/
def runSalesEngine (gap : ℚ) (w : Weights) (shelves : List Shelf) (products : List Product) :
    List Shelf × List Product × List Product × List String :=
  optimize_by_sales gap (resetShelves shelves) (sort_products_by_priority w products)

/-- Sort key of `_group_similar_products_on_shelves`: Python tuple
comparison on `(product.category.value, product.series)`. -/
def groupKeep (a b : Product) : Bool :=
  strLt a.category b.category || (a.category == b.category && strLt a.series b.series)

/-- The repositioning loop of `_group_similar_products_on_shelves`. -/
def buildGroupPositions (gap : ℚ) : ℚ → List (ShelfPosition × Product) → List ShelfPosition
  | _, [] => []
  | cx, (pos, p) :: rest =>
    let w := pos.x_end - pos.x_start
    ⟨p.product_id, cx, cx + w, pos.facings⟩ :: buildGroupPositions gap (cx + w + gap) rest

/-- `ProductOptimizer._group_similar_products_on_shelves`, for one shelf:
look every position's product up in `products_placed` (positions whose
product is not found are dropped), stable-sort by (category, series),
reflow from a leading gap. -/
def group_similar_products (gap : ℚ) (placed : List Product) (s : Shelf) : Shelf :=
  if s.positions.length < 2 then s
  else
    let pairs := s.positions.filterMap
      (fun pos => (findPlaced placed pos.product_id).map (fun p => (pos, p)))
    let sorted := stableSortBy (fun y x => groupKeep y.2 x.2) pairs
    Shelf.update_utilization { s with positions := buildGroupPositions gap gap sorted }

/-! ## Bundle optimizer (src/optimization/bundle_optimizer.py) -/

/-- Total width needed by a bundle in `_place_bundle`: member widths at
balanced facings plus inter-member gaps. -/
def bundleTotalWidth (gap : ℚ) (bundle : List Product) : ℚ :=
  (bundle.map (fun p => p.width * (p.calcFacingsBalanced : ℚ))).sum
    + gap * ((bundle.length : ℚ) - 1)

/-- The middle-gap scan of `_find_bundle_position`. -/
def consecGaps (gap required : ℚ) : List ShelfPosition → List (ℚ × ℚ)
  | p1 :: p2 :: rest =>
    let gapStart := p1.x_end + gap
    let gapWidth := (p2.x_start - gap) - gapStart
    (if gapWidth ≥ required then [(gapStart, gapWidth)] else [])
      ++ consecGaps gap required (p2 :: rest)
  | _ => []

/-- `BundleOptimizer._find_bundle_position`. -/
def find_bundle_position (gap : ℚ) (s : Shelf) (required : ℚ) : ℚ :=
  match s.positions with
  | [] =>
    let available := s.width - required
    if available > 0 then available / 2 else gap
  | first :: rest =>
    let lastPos := (first :: rest).getLast (List.cons_ne_nil _ _)
    let g1 := if first.x_start ≥ required + gap then [((0 : ℚ), first.x_start)] else []
    let g2 := consecGaps gap required (first :: rest)
    let lastEnd := lastPos.x_end + gap
    let g3 := if s.width - lastEnd ≥ required then [(lastEnd, s.width - lastEnd)] else []
    match g1 ++ g2 ++ g3 with
    | [] => lastPos.x_end + gap
    | gh :: gt =>
      let center := s.width / 2
      ((stableSortBy (fun y x =>
          decide (|y.1 + required / 2 - center| < |x.1 + required / 2 - center|))
        (gh :: gt)).headD (0, 0)).1

/-- The overlap scan of `_place_product_at_position`. -/
def overlapsAny (positions : List ShelfPosition) (x pw : ℚ) : Bool :=
  positions.any (fun pos => !(decide (x + pw ≤ pos.x_start) || decide (x ≥ pos.x_end)))

/-- `BundleOptimizer._place_product_at_position`: bound check, overlap
check, append and keep positions sorted by `x_start`. -/
def place_product_at_position (s : Shelf) (p : Product) (facings : ℤ) (x : ℚ) :
    Bool × Shelf :=
  let pw := p.width * (facings : ℚ)
  if x + pw > s.width then (false, s)
  else if overlapsAny s.positions x pw then (false, s)
  else
    (true, Shelf.update_utilization
      { s with positions := sortByXStart (s.positions ++ [⟨p.product_id, x, x + pw, facings⟩]) })

/-- The member-placement loop of `_place_bundle` after a target shelf and a
start position were chosen. -/
def placeBundleMembers (gap : ℚ) : Shelf → ℚ → List Product → Bool × Shelf
  | s, _, [] => (true, s)
  | s, cx, p :: rest =>
    let f := p.calcFacingsBalanced
    match place_product_at_position s p f cx with
    | (false, s1) => (false, s1)
    | (true, s1) => placeBundleMembers gap s1 (cx + p.width * (f : ℚ) + gap) rest

/-- The boundary set gathered by `_optimize_bundle_spacing` for one shelf:
x_start and x_end of every position whose product belongs to a bundle
placed on this shelf (a Python set; only membership is ever used). -/
def bundleBoundaries (bundleIds : List String) (s : Shelf) : List ℚ :=
  s.positions.foldl (fun acc pos =>
    if bundleIds.contains pos.product_id then acc ++ [pos.x_start, pos.x_end] else acc) []

def memQ (x : ℚ) (l : List ℚ) : Bool := l.any (fun y => y == x)

/-- The re-spacing loop of `_optimize_bundle_spacing`: double gap before a
position starting at a bundle boundary and after one ending at a bundle
boundary.  No shelf-width check is performed. -/
def spacingBuild (gap : ℚ) (boundaries : List ℚ) : ℚ → List ShelfPosition → List ShelfPosition
  | _, [] => []
  | cx, pos :: rest =>
    let cx1 := if memQ pos.x_start boundaries then cx + gap else cx
    let w := pos.x_end - pos.x_start
    let newPos : ShelfPosition := { pos with x_start := cx1, x_end := cx1 + w }
    let cx2 := newPos.x_end + gap
    let cx3 := if memQ pos.x_end boundaries then cx2 + gap else cx2
    newPos :: spacingBuild gap boundaries cx3 rest

/-- `BundleOptimizer._optimize_bundle_spacing`, for one shelf with the
boundary set already gathered. -/
def optimize_bundle_spacing (gap : ℚ) (boundaries : List ℚ) (s : Shelf) : Shelf :=
  if s.positions.length < 2 then s
  else if boundaries.isEmpty then s
  else Shelf.update_utilization
    { s with positions := spacingBuild gap boundaries gap (sortByXStart s.positions) }

/-- `all(self._try_place_product(shelf, p, p.calculate_facings("balanced"))
for p in part)`: short-circuits at the first failure, keeping earlier
placements. -/
def tryPlaceAllBalanced (gap : ℚ) : Shelf → List Product → Bool × Shelf
  | s, [] => (true, s)
  | s, p :: rest =>
    match try_place_product gap s p p.calcFacingsBalanced with
    | (true, s1) => tryPlaceAllBalanced gap s1 rest
    | (false, s1) => (false, s1)

def splitWarning (id1 id2 : ℤ) : String :=
  "Split bundle across shelves " ++ toString id1 ++ " and " ++ toString id2

def halfWidth (part : List Product) : ℚ :=
  (part.map (fun p => p.width * (p.calcFacingsBalanced : ℚ))).sum

/-- `sorted(self.store.shelves, key=lambda s: s.y_position)` as indices
into the store's shelf list (the source sorts object references; later
mutations are visible through both views, so shelves are re-read from the
current list by index). -/
def yOrder (shelves : List Shelf) : List ℕ :=
  (stableSortBy (fun y x => decide (y.2.y_position < x.2.y_position)) shelves.enum).map
    Prod.fst

/-- The pair loop of `_place_split_bundle` over consecutive shelves in
vertical order.  On a partial failure the members already placed stay
placed and the loop moves on to the next pair. -/
def splitGo (gap : ℚ) (bundle : List Product) :
    List ℕ → List Shelf → List String → Bool × List Shelf × List String
  | i :: j :: rest, shs, ws =>
    (match shs.get? i, shs.get? j with
    | some s1, some s2 =>
      if |s2.y_position - (s1.y_position + s1.height)| < 10 then
        let mid := bundle.length / 2
        let part1 := bundle.take mid
        let part2 := bundle.drop mid
        if s1.get_available_width ≥ halfWidth part1 ∧
            s2.get_available_width ≥ halfWidth part2 then
          let r1 := tryPlaceAllBalanced gap s1 part1
          let r2 := tryPlaceAllBalanced gap s2 part2
          let shs1 := (shs.set i r1.2).set j r2.2
          if r1.1 ∧ r2.1 then (true, shs1, ws ++ [splitWarning s1.shelf_id s2.shelf_id])
          else splitGo gap bundle (j :: rest) shs1 ws
        else splitGo gap bundle (j :: rest) shs ws
      else splitGo gap bundle (j :: rest) shs ws
    | _, _ => splitGo gap bundle (j :: rest) shs ws)
  | _, shs, ws => (false, shs, ws)

/-- `BundleOptimizer._place_split_bundle`. -/
def place_split_bundle (gap : ℚ) (bundle : List Product) (shelves : List Shelf)
    (warnings : List String) : Bool × List Shelf × List String :=
  splitGo gap bundle (yOrder shelves) shelves warnings

/-! ## Store (src/models/store.py) and run entry
(BaseOptimizer.create_planogram) -/

/-- The rule dictionary with the `.get` defaults of
`Store.filter_products_by_rules` applied; `min_skus_per_category` keeps its
Python truthiness (absent or 0 disables the category-limit pass). -/
structure StoreRules where
  only_bestsellers : Bool
  max_skus_total : ℕ
  filter_by_sales_rank : Bool
  max_rank_included : ℕ
  min_weekly_sales : Option ℚ
  min_skus_per_category : Option ℕ
  max_skus_per_category : ℕ
  max_facings_per_product : ℤ
  deriving DecidableEq

/-- The `placement_rules` dictionary: the engine consumes only its
`category_grouping` key (defaulted to False by `.get`). -/
structure PlacementRules where
  category_grouping : Bool
  deriving DecidableEq

structure Store where
  store_type : String
  shelves : List Shelf
  rules : StoreRules
  placement_rules : PlacementRules
  weights : Weights

/-- `sorted(filtered, key=lambda p: p.avg_weekly_sales, reverse=True)`. -/
def sortByWeeklySalesDesc (ps : List Product) : List Product :=
  stableSortBy (fun y x => decide (x.avg_weekly_sales < y.avg_weekly_sales)) ps

/-- Keys of the category-grouping dictionary in insertion order. -/
def distinctCategories (ps : List Product) : List String :=
  ps.foldl (fun acc p => if acc.contains p.category then acc else acc ++ [p.category]) []

/-- `Store._apply_category_limits`. -/
def applyCategoryLimits (rules : StoreRules) (ps : List Product) : List Product :=
  let minC := rules.min_skus_per_category.getD 1
  let maxC := rules.max_skus_per_category
  (distinctCategories ps).foldl (fun acc cat =>
    let catPs := sortByWeeklySalesDesc (ps.filter (fun p => p.category == cat))
    acc ++ catPs.take (max minC (min catPs.length maxC))) []

def catLimitsEnabled (rules : StoreRules) : Bool :=
  match rules.min_skus_per_category with
  | some n => n != 0
  | none => false

/-- `Store.filter_products_by_rules` (it reads only `store_type` and
`rules`, never the shelves). -/
def filter_products_by_rules (store_type : String) (rules : StoreRules)
    (products : List Product) : List Product :=
  let f1 :=
    if store_type == "express" then
      if rules.only_bestsellers then (sortByWeeklySalesDesc products).take rules.max_skus_total
      else products
    else if store_type == "standard" then
      if rules.filter_by_sales_rank then
        (sortByWeeklySalesDesc products).take rules.max_rank_included
      else products
    else products
  let f2 :=
    match rules.min_weekly_sales with
    | some m => f1.filter (fun p => decide (p.avg_weekly_sales ≥ m))
    | none => f1
  if catLimitsEnabled rules then applyCategoryLimits rules f2 else f2

/-- The error `create_planogram` raises when filtering leaves no products:
`OptimizationError("No products remain after filtering")` is caught by the
surrounding `except Exception` and re-raised as
`OptimizationError("Optimization failed: ...")`. -/
inductive RunError where
  | optimizationFailed (msg : String)
  deriving DecidableEq

/-- `BaseOptimizer.create_planogram`, parametric in the strategy dispatch
(`self.optimize` is abstract in the source): reset shelves, filter, abort
with the fatal error on an empty filter result, otherwise run the
optimizer. -/
def create_planogram {α : Type} (optimize : List Product → Store → α)
    (st : Store) (products : List Product) : Except RunError α :=
  let st1 : Store := { st with shelves := resetShelves st.shelves }
  let filtered := filter_products_by_rules st.store_type st.rules products
  if filtered.isEmpty then
    Except.error
      (RunError.optimizationFailed "Optimization failed: No products remain after filtering")
  else
    Except.ok (optimize filtered st1)

/-! ## The five optimization strategies and the dispatcher
(src/optimization/product_optimizer.py)

Parametric in the sort implementation `SortFns`, so that determinism can
be stated over every implementation meeting Python's sort contract;
instantiating with `pySortFns` yields the model of the source (for the
sales pipeline this instantiation provably coincides with the concrete
model proved about in C3/C6, see `optimize_by_salesS_py_eq`). -/

/-- `sorted(all_shelves, key=lambda s: s.utilization)` over shelf indices,
with the abstract sort. -/
def utilOrderS (sf : SortFns) (shelves : List Shelf) (idx : List ℕ) : List ℕ :=
  sf.asc (fun i => (getShelf shelves i).utilization) idx

/-- `lower_velocity_positions.sort(key=lambda x: x[1].sales_velocity)`. -/
def sortCandidatesByVelocityS (sf : SortFns) (l : List (ShelfPosition × Product)) :
    List (ShelfPosition × Product) :=
  sf.asc (fun c => c.2.sales_velocity) l

def bumpShelvesS (sf : SortFns) (gap : ℚ) (newP : Product) :
    List Shelf → List Product → Bool × List Shelf × List Product
  | [], placed => (false, [], placed)
  | s :: rest, placed =>
    let cands := sortCandidatesByVelocityS sf
      (lowerVelocityCandidates placed newP.sales_velocity s.positions)
    match bumpLoop gap newP s placed cands with
    | (true, s1, placed1) => (true, s1 :: rest, placed1)
    | (false, s1, placed1) =>
      let r := bumpShelvesS sf gap newP rest placed1
      (r.1, s1 :: r.2.1, r.2.2)

def force_place_high_priority_productS (sf : SortFns) (gap : ℚ) (newP : Product)
    (shelves : List Shelf) (placed : List Product) : Bool × List Shelf × List Product :=
  match placeFirstFit gap newP 1 shelves with
  | some shelves1 => (true, shelves1, placed)
  | none => bumpShelvesS sf gap newP shelves placed

def salesLoopS (sf : SortFns) (gap : ℚ) (eyeIdx : List ℕ) :
    List Product → List Shelf → List Product → List Product → List String →
    List Shelf × List Product × List Product × List String
  | [], shelves, placed, rejected, ws => (shelves, placed, rejected, ws)
  | p :: rest, shelves, placed, rejected, ws =>
    match tryOrderAt1 gap p shelves (utilOrderS sf shelves eyeIdx) with
    | some shelves1 => salesLoopS sf gap eyeIdx rest shelves1 (placed ++ [p]) rejected ws
    | none =>
      match force_place_high_priority_productS sf gap p shelves placed with
      | (true, shelves1, placed1) =>
        salesLoopS sf gap eyeIdx rest shelves1 (placed1 ++ [p]) rejected ws
      | (false, shelves1, placed1) =>
        salesLoopS sf gap eyeIdx rest shelves1 placed1 (rejected ++ [p])
          (ws ++ [rejectWarning p])

/-- `ProductOptimizer._optimize_by_sales`, abstract-sort version. -/
def optimize_by_salesS (sf : SortFns) (gap : ℚ) (shelves : List Shelf)
    (products : List Product) : List Shelf × List Product × List Product × List String :=
  salesLoopS sf gap (eyeFirstOrder shelves) (sf.desc Product.sales_velocity products)
    shelves [] [] []

inductive EngineOp where
  | addProd (p : Product) (facings : ℤ)
  | placeOnShelf (gap : ℚ) (p : Product) (facings : ℤ)
  | placeAtPos (p : Product) (facings : ℤ) (x : ℚ)
  | tryPlace (gap : ℚ) (p : Product) (facings : ℤ)
  | removeById (pid : String)
  | erasePosition (pos : ShelfPosition)
  | reflow (gap : ℚ)
  | group (gap : ℚ) (placed : List Product)
  | spacing (gap : ℚ) (boundaries : List ℚ)

def EngineOp.apply (s : Shelf) : EngineOp → Shelf
  | addProd p f => (s.add_product p f none).2
  | placeOnShelf g p f => (place_product_on_shelf g s p f).2
  | placeAtPos p f x => (place_product_at_position s p f x).2
  | tryPlace g p f => (try_place_product g s p f).2
  | removeById pid => (s.remove_product pid).2
  | erasePosition pos => { s with positions := erasePos s.positions pos }
  | reflow g => s.optimize_positions g
  | group g placed => group_similar_products g placed s
  | spacing g bs => optimize_bundle_spacing g bs s

/-- Well-formedness of the data an operation carries, guaranteed by the
data model (§3 of the spec: product dimensions are positive, facing counts
at least 1) and the configuration surface (`gap_size` is non-negative). -/
def EngineOp.wf : EngineOp → Prop
  | addProd p f => 0 ≤ p.width ∧ 0 ≤ f
  | placeOnShelf g p f => 0 ≤ g ∧ 0 ≤ p.width ∧ 0 ≤ f
  | placeAtPos p f _ => 0 ≤ p.width ∧ 0 ≤ f
  | tryPlace g p f => 0 ≤ g ∧ 0 ≤ p.width ∧ 0 ≤ f ∧ 0 ≤ p.min_facings
  | removeById _ => True
  | erasePosition _ => True
  | reflow g => 0 ≤ g
  | group g _ => 0 ≤ g
  | spacing g _ => 0 ≤ g

/-- Two placements do not overlap (the relation of the claimed invariant). -/
def posDisjoint (a b : ShelfPosition) : Prop :=
  a.x_end ≤ b.x_start ∨ b.x_end ≤ a.x_start

instance (a b : ShelfPosition) : Decidable (posDisjoint a b) := by
  unfold posDisjoint; infer_instance

def pairwiseDisjoint (l : List ShelfPosition) : Prop := l.Pairwise posDisjoint

/-- Every placement has non-negative width. -/
def widthsOk (l : List ShelfPosition) : Prop := ∀ q ∈ l, q.x_start ≤ q.x_end

def InvList (l : List ShelfPosition) : Prop := pairwiseDisjoint l ∧ widthsOk l

/-- The no-overlap invariant of a shelf: placements pairwise disjoint. -/
def Shelf.NoOverlap (s : Shelf) : Prop := pairwiseDisjoint s.positions

def Shelf.Inv (s : Shelf) : Prop := InvList s.positions

/-- The span test of `_place_product_on_shelf` at facing count `k`:
the computed x position plus the product span plus a trailing gap fits
within the shelf width. -/
def spanFits (gap : ℚ) (s : Shelf) (p : Product) (k : ℤ) : Prop :=
  placementSlot gap s + p.width * (k : ℚ) + gap ≤ s.width

instance (gap : ℚ) (s : Shelf) (p : Product) (k : ℤ) : Decidable (spanFits gap s p k) := by
  unfold spanFits; infer_instance

/-! ## Concrete data for counterexamples, failing inputs and witnesses -/

/-- An empty 100cm-wide shelf (the shape built by the store-template
loader). -/
def shelfW : Shelf :=
  { shelf_id := 1, shelf_type := "standard", width := 100, height := 30, depth := 20,
    y_position := 0, eye_level_score := 9/10, positions := [], utilization := 0 }

/-- A second shelf directly above `shelfW` (vertical gap 2 < 10). -/
def shelfW2 : Shelf := { shelfW with shelf_id := 2, y_position := 32, eye_level_score := 1/2 }

/-- Bundle members for C2: width 46, very low sales (1 balanced facing). -/
def pB1 : Product := mkProduct "b1" "case" "iPhone 16" 46 10 5 10 0 3
def pB2 : Product := mkProduct "b2" "cable" "iPhone 16" 46 10 5 8 0 2

/-- C3: a top seller (total_qty 400 → min_facings 3). -/
def pHot : Product := mkProduct "hot" "charger" "iPhone 16" 8 10 5 400 0 100

/-- C4: width 30, requested at 4 facings on the empty shelf. -/
def pC4 : Product := mkProduct "c4" "case" "iPhone 15" 30 10 5 10 0 3

/-- C5: width 98 passes `can_fit_product` on the empty 100cm shelf but not
the gap-aware span check. -/
def pC5 : Product := mkProduct "c5" "mount" "iPad" 98 10 5 10 0 3

/-- C6: three placed products (width 28, velocities 5, 1, 5) and an
incoming product (width 40, velocity 10). -/
def pA : Product := mkProduct "A" "case" "iPhone 16" 28 10 5 5 0 1
def pB : Product := mkProduct "B" "cable" "iPhone 16" 28 10 5 1 0 1
def pC : Product := mkProduct "C" "audio" "iPhone 16" 28 10 5 5 0 1
def pN : Product := mkProduct "N" "charger" "iPhone 16" 40 10 5 10 0 2

/-- The C6 shelf: A, B, C placed by `_place_product_on_shelf` with the
default gap 2, occupying [2,30], [32,60], [62,90]. -/
def c6Shelf : Shelf :=
  (place_product_on_shelf 2
    (place_product_on_shelf 2
      (place_product_on_shelf 2 shelfW pA 1).2 pB 1).2 pC 1).2

/-- C7 bundle: two wide members then two narrow ones; part1 = [q1, q2]
pre-fits by available width but the second placement fails the span
check, leaving q1 behind. -/
def q1 : Product := mkProduct "q1" "case" "iPhone 16" 48 10 5 10 0 3
def q2 : Product := mkProduct "q2" "cable" "iPhone 16" 48 10 5 8 0 2
def q3 : Product := mkProduct "q3" "adapter" "iPhone 16" 10 10 5 6 0 2
def q4 : Product := mkProduct "q4" "mount" "iPhone 16" 10 10 5 4 0 1

/-- C8: two placements on a shelf, as left by the balanced placement pass. -/
def c8Shelf : Shelf :=
  (place_product_on_shelf 2 (place_product_on_shelf 2 shelfW pA 1).2 pB 1).2

/-- C9: a store whose minimum weekly-sales rule filters everything out. -/
def storeRulesC9 : StoreRules :=
  { only_bestsellers := false, max_skus_total := 30, filter_by_sales_rank := false,
    max_rank_included := 20, min_weekly_sales := some 10,
    min_skus_per_category := none, max_skus_per_category := 999,
    max_facings_per_product := 4 }

def weights0 : Weights := { sales_velocity := 3/10, attach_rate := 3/10, new_product_priority := 2/10 }

def storeC9 : Store :=
  { store_type := "standard", shelves := [shelfW], rules := storeRulesC9,
    placement_rules := { category_grouping := false }, weights := weights0 }

/-- A product below the weekly-sales cutoff of `storeC9`. -/
def pSlow : Product := mkProduct "slow" "case" "iPhone 14" 10 10 5 12 0 5

theorem insertKeep_perm (keep : α → α → Bool) (x : α) (l : List α) :
    List.Perm (insertKeep keep x l) (x :: l) := by
  induction l with
  | nil => simp [insertKeep]
  | cons y ys ih =>
    simp only [insertKeep]
    split
    · exact ((ih.cons y).trans (List.Perm.swap x y ys))
    · exact List.Perm.refl _

theorem stableSortBy_perm (keep : α → α → Bool) (l : List α) :
    List.Perm (stableSortBy keep l) l := by
  induction l with
  | nil => exact List.Perm.refl _
  | cons x xs ih => exact (insertKeep_perm keep x (stableSortBy keep xs)).trans (ih.cons x)

theorem mem_stableSortBy {keep : α → α → Bool} {l : List α} {a : α} :
    a ∈ stableSortBy keep l ↔ a ∈ l :=
  (stableSortBy_perm keep l).mem_iff

theorem posDisjoint_symm : Symmetric posDisjoint := fun _ _ h => Or.symm h

theorem pairwiseDisjoint_of_perm {l l' : List ShelfPosition} (h : List.Perm l l')
    (hl : pairwiseDisjoint l) : pairwiseDisjoint l' :=
  (h.pairwise_iff (fun {_ _} hab => Or.symm hab)).mp hl

/-! ## Helper lemmas: positions are untouched by utilization updates -/

@[simp] theorem update_utilization_positions (s : Shelf) :
    (Shelf.update_utilization s).positions = s.positions := by
  unfold Shelf.update_utilization
  split <;> rfl

@[simp] theorem update_utilization_width (s : Shelf) :
    (Shelf.update_utilization s).width = s.width := by
  unfold Shelf.update_utilization
  split <;> rfl

@[simp] theorem commitPlacement_positions (s : Shelf) (p : Product) (f : ℤ) (x pw : ℚ) :
    (commitPlacement s p f x pw).positions =
      s.positions ++ [⟨p.product_id, x, x + pw, f⟩] := by
  unfold commitPlacement
  simp

/-! ## Helper lemmas: the rightmost placement -/

theorem foldl_maxXEnd_spec (l : List ShelfPosition) (acc : ShelfPosition) :
    acc.x_end ≤ (l.foldl (fun best q => if q.x_end > best.x_end then q else best) acc).x_end ∧
    ∀ q ∈ l, q.x_end ≤ (l.foldl (fun best q => if q.x_end > best.x_end then q else best) acc).x_end := by
  induction l generalizing acc with
  | nil => simp
  | cons r rs ih =>
    simp only [List.foldl_cons, List.mem_cons]
    constructor
    · rcases le_or_lt r.x_end acc.x_end with h | h
      · have : (if r.x_end > acc.x_end then r else acc) = acc := if_neg (not_lt.mpr h)
        rw [this]; exact (ih acc).1
      · have : (if r.x_end > acc.x_end then r else acc) = r := if_pos h
        rw [this]; exact le_trans h.le (ih r).1
    · intro q hq
      rcases hq with rfl | hq
      · rcases le_or_lt q.x_end acc.x_end with h | h
        · have : (if q.x_end > acc.x_end then q else acc) = acc := if_neg (not_lt.mpr h)
          rw [this]; exact le_trans h (ih acc).1
        · have : (if q.x_end > acc.x_end then q else acc) = q := if_pos h
          rw [this]; exact (ih q).1
      · exact (ih _).2 q hq

theorem maxXEndPos_spec {l : List ShelfPosition} {m : ShelfPosition}
    (h : maxXEndPos l = some m) : ∀ q ∈ l, q.x_end ≤ m.x_end := by
  cases l with
  | nil => simp [maxXEndPos] at h
  | cons p ps =>
    simp only [maxXEndPos, Option.some.injEq] at h
    subst h
    intro q hq
    rcases List.mem_cons.mp hq with rfl | hq
    · exact (foldl_maxXEnd_spec ps q).1
    · exact (foldl_maxXEnd_spec ps p).2 q hq

/-- Every placement ends at or before the position `_place_product_on_shelf`
computes, provided the gap is non-negative. -/
theorem placementSlot_ge {gap : ℚ} (s : Shelf) (hg : 0 ≤ gap) :
    ∀ q ∈ s.positions, q.x_end ≤ placementSlot gap s := by
  intro q hq
  obtain ⟨m, hm⟩ : ∃ m, maxXEndPos s.positions = some m := by
    cases hp : s.positions with
    | nil => rw [hp] at hq; simp at hq
    | cons a as => exact ⟨_, rfl⟩
  have h2 := maxXEndPos_spec hm q hq
  unfold placementSlot
  simp only [hm]
  linarith

/-! ## Helper lemmas: invariant preservation building blocks -/

theorem invList_nil : InvList [] :=
  ⟨List.Pairwise.nil, by intro q hq; simp at hq⟩

/-- Appending a placement that starts after every existing placement ends
preserves the invariant. -/
theorem invList_append_after {l : List ShelfPosition} {new : ShelfPosition}
    (hl : InvList l) (hw : new.x_start ≤ new.x_end)
    (hx : ∀ q ∈ l, q.x_end ≤ new.x_start) : InvList (l ++ [new]) := by
  constructor
  · unfold pairwiseDisjoint
    rw [List.pairwise_append]
    refine ⟨hl.1, by simp, ?_⟩
    intro a ha b hb
    rw [List.mem_singleton] at hb
    subst hb
    exact Or.inl (hx a ha)
  · intro q hq
    rcases List.mem_append.mp hq with h | h
    · exact hl.2 q h
    · rw [List.mem_singleton] at h; subst h; exact hw

theorem invList_of_perm {l l' : List ShelfPosition} (h : List.Perm l l')
    (hl : InvList l) : InvList l' :=
  ⟨pairwiseDisjoint_of_perm h hl.1, fun q hq => hl.2 q (h.mem_iff.mpr hq)⟩

theorem invList_sublist {l l' : List ShelfPosition} (h : l.Sublist l')
    (hl : InvList l') : InvList l :=
  ⟨List.Pairwise.sublist h hl.1, fun q hq => hl.2 q (h.subset hq)⟩

theorem erasePos_sublist (l : List ShelfPosition) (pos : ShelfPosition) :
    (erasePos l pos).Sublist l := by
  induction l with
  | nil => simp [erasePos]
  | cons q qs ih =>
    simp only [erasePos]
    split
    · exact (List.Sublist.refl qs).cons q
    · exact ih.cons₂ q

/-- The reflow loop produces disjoint, non-negative-width placements all
starting at or after the cursor. -/
theorem reflowFrom_invList {gap : ℚ} (hg : 0 ≤ gap) :
    ∀ (l : List ShelfPosition) (c : ℚ), widthsOk l →
      InvList (reflowFrom gap c l) ∧ ∀ q ∈ reflowFrom gap c l, c ≤ q.x_start := by
  intro l
  induction l with
  | nil =>
    intro c _
    exact ⟨invList_nil, by intro q hq; simp [reflowFrom] at hq⟩
  | cons pos rest ih =>
    intro c hwo
    have hw : pos.x_start ≤ pos.x_end := hwo pos (List.mem_cons_self _ _)
    have hwo2 : widthsOk rest := fun q hq => hwo q (List.mem_cons_of_mem _ hq)
    obtain ⟨⟨hpw, hwk⟩, hge⟩ := ih (c + (pos.x_end - pos.x_start) + gap) hwo2
    simp only [reflowFrom]
    refine ⟨⟨List.Pairwise.cons ?_ hpw, ?_⟩, ?_⟩
    · intro q hq
      have := hge q hq
      exact Or.inl (by simp only; linarith)
    · intro q hq
      rcases List.mem_cons.mp hq with rfl | hq
      · simp only; linarith
      · exact hwk q hq
    · intro q hq
      rcases List.mem_cons.mp hq with rfl | hq
      · simp only; linarith
      · have := hge q hq; linarith

/-- The bundle-spacing loop likewise produces a left-to-right chain. -/
theorem spacingBuild_invList {gap : ℚ} {boundaries : List ℚ} (hg : 0 ≤ gap) :
    ∀ (l : List ShelfPosition) (c : ℚ), widthsOk l →
      InvList (spacingBuild gap boundaries c l) ∧
      ∀ q ∈ spacingBuild gap boundaries c l, c ≤ q.x_start := by
  intro l
  induction l with
  | nil =>
    intro c _
    exact ⟨invList_nil, by intro q hq; simp [spacingBuild] at hq⟩
  | cons pos rest ih =>
    intro c hwo
    have hw : pos.x_start ≤ pos.x_end := hwo pos (List.mem_cons_self _ _)
    have hwo2 : widthsOk rest := fun q hq => hwo q (List.mem_cons_of_mem _ hq)
    simp only [spacingBuild]
    set c1 : ℚ := if memQ pos.x_start boundaries then c + gap else c with hc1
    have hcc1 : c ≤ c1 := by
      rw [hc1]; split
      · linarith
      · exact le_refl c
    set w : ℚ := pos.x_end - pos.x_start with hwdef
    set c2 : ℚ := c1 + w + gap with hc2
    set c3 : ℚ := if memQ pos.x_end boundaries then c2 + gap else c2 with hc3
    have hc23 : c2 ≤ c3 := by
      rw [hc3]; split
      · linarith
      · exact le_refl c2
    obtain ⟨⟨hpw, hwk⟩, hge⟩ := ih c3 hwo2
    refine ⟨⟨List.Pairwise.cons ?_ hpw, ?_⟩, ?_⟩
    · intro q hq
      have h1 := hge q hq
      refine Or.inl ?_
      simp only
      have h2 : c1 + w ≤ c3 := by rw [hc2] at hc23; linarith
      linarith
    · intro q hq
      rcases List.mem_cons.mp hq with rfl | hq
      · simp only
        have h0 : 0 ≤ w := by rw [hwdef]; linarith
        linarith
      · exact hwk q hq
    · intro q hq
      rcases List.mem_cons.mp hq with rfl | hq
      · simp only; exact hcc1
      · have h1 := hge q hq
        have h0 : 0 ≤ w := by rw [hwdef]; linarith
        have h2 : c ≤ c3 := by rw [hc2] at hc23; linarith
        linarith

/-- The grouping reposition loop likewise produces a left-to-right chain. -/
theorem buildGroupPositions_invList {gap : ℚ} (hg : 0 ≤ gap) :
    ∀ (l : List (ShelfPosition × Product)) (c : ℚ),
      (∀ pr ∈ l, pr.1.x_start ≤ pr.1.x_end) →
      InvList (buildGroupPositions gap c l) ∧
      ∀ q ∈ buildGroupPositions gap c l, c ≤ q.x_start := by
  intro l
  induction l with
  | nil =>
    intro c _
    exact ⟨invList_nil, by intro q hq; simp [buildGroupPositions] at hq⟩
  | cons pr rest ih =>
    intro c hwo
    obtain ⟨pos, p⟩ := pr
    have hw : pos.x_start ≤ pos.x_end := hwo (pos, p) (List.mem_cons_self _ _)
    have hwo2 : ∀ q ∈ rest, q.1.x_start ≤ q.1.x_end :=
      fun q hq => hwo q (List.mem_cons_of_mem _ hq)
    obtain ⟨⟨hpw, hwk⟩, hge⟩ := ih (c + (pos.x_end - pos.x_start) + gap) hwo2
    simp only [buildGroupPositions]
    refine ⟨⟨List.Pairwise.cons ?_ hpw, ?_⟩, ?_⟩
    · intro q hq
      have := hge q hq
      exact Or.inl (by simp only; linarith)
    · intro q hq
      rcases List.mem_cons.mp hq with rfl | hq
      · simp only; linarith
      · exact hwk q hq
    · intro q hq
      rcases List.mem_cons.mp hq with rfl | hq
      · simp only; linarith
      · have := hge q hq; linarith


/-! ## Invariant preservation for every engine placement operation -/

theorem inv_commit {gap : ℚ} {s : Shelf} (p : Product) (f : ℤ) {pw : ℚ}
    (hs : s.Inv) (hg : 0 ≤ gap) (hpw : 0 ≤ pw) :
    (commitPlacement s p f (placementSlot gap s) pw).Inv := by
  unfold Shelf.Inv
  rw [commitPlacement_positions]
  exact invList_append_after hs (by simp only; linarith)
    (fun q hq => placementSlot_ge s hg q hq)

theorem inv_placeOnShelfOnce {gap : ℚ} {s : Shelf} {p : Product} {f : ℤ}
    (hs : s.Inv) (hg : 0 ≤ gap) (hw : 0 ≤ p.width) (hf : 0 ≤ f) :
    ((placeOnShelfOnce gap s p f).2).Inv := by
  have hpw : 0 ≤ p.width * (f : ℚ) :=
    mul_nonneg hw (by exact_mod_cast hf)
  unfold placeOnShelfOnce
  dsimp only
  split_ifs
  · exact hs
  · exact hs
  · exact hs
  · exact inv_commit p f hs hg hpw

theorem inv_place_product_on_shelf {gap : ℚ} {s : Shelf} {p : Product} {f : ℤ}
    (hs : s.Inv) (hg : 0 ≤ gap) (hw : 0 ≤ p.width) (hf : 0 ≤ f) :
    ((place_product_on_shelf gap s p f).2).Inv := by
  have hpw : 0 ≤ p.width * (f : ℚ) :=
    mul_nonneg hw (by exact_mod_cast hf)
  have hf2 : (0 : ℤ) ≤ max 1 (or1 p.min_facings) :=
    le_trans zero_le_one (le_max_left _ _)
  unfold place_product_on_shelf
  dsimp only
  split_ifs
  · exact hs
  · exact hs
  · exact inv_placeOnShelfOnce hs hg hw hf2
  · exact hs
  · exact inv_commit p f hs hg hpw

theorem inv_try_place_product {gap : ℚ} {s : Shelf} {p : Product} {f : ℤ}
    (hs : s.Inv) (hg : 0 ≤ gap) (hw : 0 ≤ p.width) (hf : 0 ≤ f)
    (hmf : 0 ≤ p.min_facings) :
    ((try_place_product gap s p f).2).Inv := by
  unfold try_place_product
  split_ifs
  · exact inv_place_product_on_shelf hs hg hw hf
  · exact inv_place_product_on_shelf hs hg hw hmf
  · exact hs
  · exact hs

theorem inv_add_product {s : Shelf} {p : Product} {f : ℤ}
    (hs : s.Inv) (hw : 0 ≤ p.width) (hf : 0 ≤ f) :
    ((s.add_product p f none).2).Inv := by
  have hpw : 0 ≤ p.width * (f : ℚ) :=
    mul_nonneg hw (by exact_mod_cast hf)
  unfold Shelf.add_product
  split_ifs
  · exact hs
  · simp only
    unfold Shelf.Inv
    rw [update_utilization_positions]
    cases hm : maxXEndPos s.positions with
    | none =>
      have hemp : s.positions = [] := by
        cases hp : s.positions with
        | nil => rfl
        | cons a as => rw [hp] at hm; simp [maxXEndPos] at hm
      rw [hemp]
      refine invList_append_after invList_nil (by simp only; linarith) ?_
      intro q hq; simp at hq
    | some m =>
      refine invList_append_after hs (by simp only; linarith) ?_
      intro q hq
      have := maxXEndPos_spec hm q hq
      simp only
      linarith

theorem inv_place_at_position {s : Shelf} {p : Product} {f : ℤ} {x : ℚ}
    (hs : s.Inv) (hw : 0 ≤ p.width) (hf : 0 ≤ f) :
    ((place_product_at_position s p f x).2).Inv := by
  have hpw : 0 ≤ p.width * (f : ℚ) :=
    mul_nonneg hw (by exact_mod_cast hf)
  unfold place_product_at_position
  dsimp only
  split_ifs with h1 h2
  · exact hs
  · exact hs
  · simp only
    unfold Shelf.Inv
    rw [update_utilization_positions]
    have hsep : ∀ q ∈ s.positions,
        x + p.width * (f : ℚ) ≤ q.x_start ∨ q.x_end ≤ x := by
      intro q hq
      by_contra hcon
      push_neg at hcon
      apply h2
      unfold overlapsAny
      rw [List.any_eq_true]
      refine ⟨q, hq, ?_⟩
      simp [hcon.1, hcon.2]
    have happ : InvList (s.positions ++ [⟨p.product_id, x, x + p.width * (f : ℚ), f⟩]) := by
      constructor
      · unfold pairwiseDisjoint
        rw [List.pairwise_append]
        refine ⟨hs.1, by simp, ?_⟩
        intro a ha b hb
        rw [List.mem_singleton] at hb
        subst hb
        rcases hsep a ha with h | h
        · exact Or.inr h
        · exact Or.inl h
      · intro q hq
        rcases List.mem_append.mp hq with h | h
        · exact hs.2 q h
        · rw [List.mem_singleton] at h; subst h; simp only; linarith
    exact invList_of_perm (stableSortBy_perm _ _).symm happ

theorem inv_remove_product {s : Shelf} {pid : String} (hs : s.Inv) :
    ((s.remove_product pid).2).Inv := by
  unfold Shelf.remove_product
  dsimp only
  split_ifs
  · unfold Shelf.Inv
    rw [update_utilization_positions]
    exact invList_sublist (List.filter_sublist _) hs
  · exact hs

theorem inv_erase_position {s : Shelf} {pos : ShelfPosition} (hs : s.Inv) :
    InvList (erasePos s.positions pos) :=
  invList_sublist (erasePos_sublist _ _) hs

theorem inv_optimize_positions {s : Shelf} {gap : ℚ} (hs : s.Inv) (hg : 0 ≤ gap) :
    ((s.optimize_positions gap)).Inv := by
  unfold Shelf.optimize_positions
  split_ifs
  · exact hs
  · unfold Shelf.Inv
    rw [update_utilization_positions]
    have hwo : widthsOk (sortByXStart s.positions) := by
      intro q hq
      exact hs.2 q (mem_stableSortBy.mp hq)
    exact ((reflowFrom_invList hg) _ 0 hwo).1

theorem inv_group_similar {gap : ℚ} {placed : List Product} {s : Shelf}
    (hs : s.Inv) (hg : 0 ≤ gap) :
    (group_similar_products gap placed s).Inv := by
  unfold group_similar_products
  split_ifs
  · exact hs
  · unfold Shelf.Inv
    rw [update_utilization_positions]
    have hwo : ∀ pr ∈ stableSortBy (fun y x => groupKeep y.2 x.2)
        (s.positions.filterMap
          (fun pos => (findPlaced placed pos.product_id).map (fun p => (pos, p)))),
        pr.1.x_start ≤ pr.1.x_end := by
      intro pr hpr
      have hpr2 := mem_stableSortBy.mp hpr
      obtain ⟨pos, hmem, hf⟩ := List.mem_filterMap.mp hpr2
      have : pr.1 = pos := by
        cases hfp : findPlaced placed pos.product_id with
        | none => rw [hfp] at hf; simp at hf
        | some q =>
          rw [hfp] at hf
          simp only [Option.map_some', Option.some.injEq] at hf
          rw [← hf]
      rw [this]
      exact hs.2 pos hmem
    exact ((buildGroupPositions_invList hg) _ gap hwo).1

theorem inv_bundle_spacing {gap : ℚ} {boundaries : List ℚ} {s : Shelf}
    (hs : s.Inv) (hg : 0 ≤ gap) :
    (optimize_bundle_spacing gap boundaries s).Inv := by
  unfold optimize_bundle_spacing
  split_ifs
  · exact hs
  · exact hs
  · unfold Shelf.Inv
    rw [update_utilization_positions]
    have hwo : widthsOk (sortByXStart s.positions) := by
      intro q hq
      exact hs.2 q (mem_stableSortBy.mp hq)
    exact ((spacingBuild_invList hg) _ gap hwo).1

/-- Every well-formed engine operation preserves the invariant. -/
theorem inv_engine_op {s : Shelf} (op : EngineOp) (hs : s.Inv) (hwf : op.wf) :
    (op.apply s).Inv := by
  cases op with
  | addProd p f => exact inv_add_product hs hwf.1 hwf.2
  | placeOnShelf g p f => exact inv_place_product_on_shelf hs hwf.1 hwf.2.1 hwf.2.2
  | placeAtPos p f x => exact inv_place_at_position hs hwf.1 hwf.2
  | tryPlace g p f => exact inv_try_place_product hs hwf.1 hwf.2.1 hwf.2.2.1 hwf.2.2.2
  | removeById pid => exact inv_remove_product hs
  | erasePosition pos => exact inv_erase_position hs
  | reflow g => exact inv_optimize_positions hs hwf
  | group g placed => exact inv_group_similar hs hwf
  | spacing g bs => exact inv_bundle_spacing hs hwf

theorem inv_engine_ops (ops : List EngineOp) :
    ∀ s : Shelf, s.Inv → (∀ op ∈ ops, op.wf) →
      ((ops.foldl EngineOp.apply s)).Inv := by
  induction ops with
  | nil => intro s hs _; exact hs
  | cons op rest ih =>
    intro s hs hwf
    rw [List.foldl_cons]
    exact ih _ (inv_engine_op op hs (hwf op (List.mem_cons_self _ _)))
      (fun o ho => hwf o (List.mem_cons_of_mem _ ho))

theorem inv_resetShelf (s : Shelf) : (resetShelf s).Inv := by
  unfold Shelf.Inv resetShelf
  rw [update_utilization_positions]
  exact invList_nil

/-! ## Claim theorems -/

/-- C1: No-overlap invariant.  After any sequence of engine placement
operations (add_product as the engine would invoke it, _place_product_on_shelf,
_place_product_at_position and the bundle placement built on it,
_try_place_product, the removals used by load balancing and bump-out, and
the reflow/grouping/bundle-spacing passes), starting from a reset shelf,
the shelf's placements are pairwise non-overlapping: for every two
placements one ends at or before the other starts. -/
theorem no_overlap_after_engine_ops (s0 : Shelf) (ops : List EngineOp)
    (hwf : ∀ op ∈ ops, op.wf) :
    Shelf.NoOverlap (ops.foldl EngineOp.apply (resetShelf s0)) :=
  (inv_engine_ops ops (resetShelf s0) (inv_resetShelf s0) hwf).1

/-- Witness for C1: a concrete operation sequence mixing the base
primitive, a bundle placement at an explicit position, and a reflow. -/
theorem no_overlap_after_engine_ops_witness :
    Shelf.NoOverlap
      (([EngineOp.placeOnShelf 2 pA 1, EngineOp.placeAtPos pB 1 50,
          EngineOp.reflow 2] : List EngineOp).foldl EngineOp.apply (resetShelf shelfW)) :=
  no_overlap_after_engine_ops shelfW _ (by
    intro op hop
    simp only [List.mem_cons, List.not_mem_nil, or_false] at hop
    rcases hop with rfl | rfl | rfl
    · exact ⟨by decide, by decide, by decide⟩
    · exact ⟨by decide, by decide⟩
    · exact show (0:ℚ) ≤ 2 by decide)

/-- C2 (the code violates the capacity invariant): a reachable bundle run on
an empty 100cm shelf — two members of width 46 at 1 balanced facing each,
total 94 ≤ available 100, centred by `_find_bundle_position` at x = 3 —
places within the shelf, but the `_optimize_bundle_spacing` pass then
reflows the shelf to [4,50] and [56,102], pushing a placement past the
shelf width. -/
theorem capacity_violated_by_bundle_spacing :
    pB1.calcFacingsBalanced = 1 ∧ pB2.calcFacingsBalanced = 1 ∧
    bundleTotalWidth 2 [pB1, pB2] = 94 ∧ shelfW.get_available_width = 100 ∧
    find_bundle_position 2 shelfW (bundleTotalWidth 2 [pB1, pB2]) = 3 ∧
    (placeBundleMembers 2 shelfW 3 [pB1, pB2]).1 = true ∧
    (∀ pos ∈ (placeBundleMembers 2 shelfW 3 [pB1, pB2]).2.positions,
      pos.x_end ≤ (placeBundleMembers 2 shelfW 3 [pB1, pB2]).2.width) ∧
    (∃ pos ∈ (optimize_bundle_spacing 2
        (bundleBoundaries ["b1", "b2"] (placeBundleMembers 2 shelfW 3 [pB1, pB2]).2)
        (placeBundleMembers 2 shelfW 3 [pB1, pB2]).2).positions,
      (optimize_bundle_spacing 2
        (bundleBoundaries ["b1", "b2"] (placeBundleMembers 2 shelfW 3 [pB1, pB2]).2)
        (placeBundleMembers 2 shelfW 3 [pB1, pB2]).2).width < pos.x_end) := by
  decide

/-- C3 (the code violates the facing-bounds invariant): the sales_velocity
strategy places every product with `facings = 1`; for the top seller `pHot`
(total_qty 400, hence min_facings 3) the resulting placement has a facing
count strictly below min_facings. -/
theorem facing_bounds_violated_by_sales_strategy :
    pHot.min_facings = 3 ∧
    ∃ s ∈ (optimize_by_sales 2 [shelfW] [pHot]).1, ∃ pos ∈ s.positions,
      pos.product_id = pHot.product_id ∧ pos.facings < pHot.min_facings := by
  decide

/-- C8 (the code violates the grouping claim): when `_optimize_balanced`
calls `_group_similar_products_on_shelves`, `self.products_placed` is still
the empty list set by `create_planogram` (it is assigned only after the
post-optimization passes), so the lookup finds no product and the pass
replaces a shelf holding two placements with an empty placement list. -/
theorem grouping_pass_wipes_placements :
    c8Shelf.positions.length = 2 ∧
    (group_similar_products 2 [] c8Shelf).positions = [] ∧
    (group_similar_products 2 [pA, pB] c8Shelf).positions.length = 2 := by
  decide

/-! ## C4: the placement primitive -/

theorem placeOnShelfOnce_atomic (gap : ℚ) (s : Shelf) (p : Product) (f : ℤ) :
    (placeOnShelfOnce gap s p f).1 = false → (placeOnShelfOnce gap s p f).2 = s := by
  unfold placeOnShelfOnce
  dsimp only
  split_ifs <;> simp

theorem place_product_on_shelf_atomic (gap : ℚ) (s : Shelf) (p : Product) (f : ℤ) :
    (place_product_on_shelf gap s p f).1 = false →
      (place_product_on_shelf gap s p f).2 = s := by
  unfold place_product_on_shelf
  dsimp only
  split_ifs
  · simp
  · simp
  · exact placeOnShelfOnce_atomic gap s p _
  · simp
  · simp

/-- C4 counterexample: on the empty 100cm shelf, `pC4` (width 30,
min_facings 1) requested at 4 facings has span 2 + 120 + 2 = 124 > 100, so
by the claim the primitive must return false and leave the shelf
unchanged; instead it silently retries at min_facings, returns true and
mutates the shelf. -/
theorem addPlacement_failure_counterexample :
    (placementSlot 2 shelfW + pC4.width * ((4 : ℤ) : ℚ) + 2 > shelfW.width) ∧
    (place_product_on_shelf 2 shelfW pC4 4).1 = true ∧
    (place_product_on_shelf 2 shelfW pC4 4).2 ≠ shelfW := by decide

/-- C4 (amended): for a product fitting the shelf's height and depth, the
primitive computes x_start as a leading gap on an empty shelf or the right
edge of the rightmost placement plus the gap; when the requested span
overflows and no internal retry applies (facings ≤ 1 or ≤ min_facings) it
returns false; whenever it returns false — including after the internal
retry at min_facings — the shelf is unchanged; and when the span fits it
returns true, appending exactly the new placement. -/
theorem addPlacement_spec (gap : ℚ) (s : Shelf) (p : Product) (f : ℤ)
    (hh : p.height ≤ s.height) (hd : p.depth ≤ s.depth) :
    ((place_product_on_shelf gap s p f).1 = false →
      (place_product_on_shelf gap s p f).2 = s) ∧
    (s.positions = [] → placementSlot gap s = gap) ∧
    (∀ m, maxXEndPos s.positions = some m → placementSlot gap s = m.x_end + gap) ∧
    (¬spanFits gap s p f → ¬(1 < f ∧ or1 p.min_facings < f) →
      place_product_on_shelf gap s p f = (false, s)) ∧
    (spanFits gap s p f →
      (place_product_on_shelf gap s p f).1 = true ∧
      (place_product_on_shelf gap s p f).2.positions =
        s.positions ++ [⟨p.product_id, placementSlot gap s,
          placementSlot gap s + p.width * (f : ℚ), f⟩]) := by
  refine ⟨place_product_on_shelf_atomic gap s p f, ?_, ?_, ?_, ?_⟩
  · intro hemp
    simp [placementSlot, hemp, maxXEndPos]
  · intro m hm
    unfold placementSlot
    simp only [hm]
  · intro hnspan hnretry
    unfold place_product_on_shelf
    dsimp only
    rw [if_neg (not_lt.mpr hh), if_neg (not_lt.mpr hd), if_pos (not_le.mp hnspan),
      if_neg hnretry]
  · intro hspan
    unfold place_product_on_shelf
    dsimp only
    rw [if_neg (not_lt.mpr hh), if_neg (not_lt.mpr hd), if_neg (not_lt.mpr hspan)]
    exact ⟨rfl, by rw [commitPlacement_positions]⟩

/-- Witness for C4 (amended) at a concrete shelf and product. -/
theorem addPlacement_spec_witness :
    pC4.height ≤ shelfW.height ∧ spanFits 2 shelfW pC4 1 ∧
    (place_product_on_shelf 2 shelfW pC4 1).1 = true :=
  ⟨by decide, by decide,
    ((addPlacement_spec 2 shelfW pC4 1 (by decide) (by decide)).2.2.2.2 (by decide)).1⟩

/-! ## C5: facing reduction in _try_place_product -/

theorem can_fit_dims {s : Shelf} {p : Product} {f : ℤ}
    (h : s.can_fit_product p f = true) : p.height ≤ s.height ∧ p.depth ≤ s.depth := by
  unfold Shelf.can_fit_product at h
  split_ifs at h with h1 h2
  · exact ⟨not_lt.mp h1, not_lt.mp h2⟩

theorem or1_not_lt (m : ℤ) : ¬(or1 m < m) := by
  unfold or1
  split_ifs with h
  · omega
  · exact lt_irrefl m

theorem placeOnShelfOnce_success_iff (gap : ℚ) (s : Shelf) (p : Product) (f : ℤ)
    (hh : p.height ≤ s.height) (hd : p.depth ≤ s.depth) :
    (placeOnShelfOnce gap s p f).1 = true ↔ spanFits gap s p f := by
  unfold placeOnShelfOnce
  dsimp only
  rw [if_neg (not_lt.mpr hh), if_neg (not_lt.mpr hd)]
  by_cases h : placementSlot gap s + p.width * (f : ℚ) + gap > s.width
  · rw [if_pos h]
    simp [spanFits, not_le.mpr h]
  · rw [if_neg h]
    simp [spanFits, not_lt.mp h]

theorem place_success_iff (gap : ℚ) (s : Shelf) (p : Product) (f : ℤ)
    (hh : p.height ≤ s.height) (hd : p.depth ≤ s.depth) :
    (place_product_on_shelf gap s p f).1 = true ↔
      (spanFits gap s p f ∨
        (1 < f ∧ or1 p.min_facings < f ∧
          spanFits gap s p (max 1 (or1 p.min_facings)))) := by
  unfold place_product_on_shelf
  dsimp only
  rw [if_neg (not_lt.mpr hh), if_neg (not_lt.mpr hd)]
  by_cases hspan : placementSlot gap s + p.width * (f : ℚ) + gap > s.width
  · rw [if_pos hspan]
    by_cases hretry : 1 < f ∧ or1 p.min_facings < f
    · rw [if_pos hretry]
      rw [placeOnShelfOnce_success_iff gap s p _ hh hd]
      constructor
      · intro hm; exact Or.inr ⟨hretry.1, hretry.2, hm⟩
      · rintro (hsp | ⟨_, _, hm⟩)
        · exact absurd hsp (not_le.mpr hspan)
        · exact hm
    · rw [if_neg hretry]
      constructor
      · intro hc; simp at hc
      · rintro (hsp | ⟨ha, hb, _⟩)
        · exact absurd hsp (not_le.mpr hspan)
        · exact absurd ⟨ha, hb⟩ hretry
  · rw [if_neg hspan]
    constructor
    · intro _; exact Or.inl (not_lt.mp hspan)
    · intro _; rfl

/-- C5 counterexample: `pC5` (width 98, min_facings 1) "fits" the empty
100cm shelf according to the fit test `can_fit_product` at the computed
facing count (and min_facings equals that count, so the two counts of the
claim coincide and both fit), yet the attempt fails, because the
placement primitive additionally demands leading and trailing gaps. -/
theorem facing_reduction_counterexample :
    shelfW.can_fit_product pC5 1 = true ∧ pC5.min_facings = 1 ∧
    try_place_product 2 shelfW pC5 1 = (false, shelfW) := by decide

/-- C5 (amended): a fit attempt at facing count f succeeds iff either f
passes both the available-width fit test and the gap-aware span check
(allowing the span check to pass after the primitive's internal retry at
min_facings, available when f > 1 and f > min_facings), or the fit test
fails at f, f exceeds min_facings, and min_facings passes both the fit
test and the span check — i.e. the engine retries exactly once at
min_facings, but "fits" must include the span check, not only the fit
test. -/
theorem try_place_success_characterization (gap : ℚ) (s : Shelf) (p : Product) (f : ℤ) :
    (try_place_product gap s p f).1 = true ↔
      ((s.can_fit_product p f = true ∧
          (spanFits gap s p f ∨
            (1 < f ∧ or1 p.min_facings < f ∧
              spanFits gap s p (max 1 (or1 p.min_facings))))) ∨
        (s.can_fit_product p f = false ∧ p.min_facings < f ∧
          s.can_fit_product p p.min_facings = true ∧
          spanFits gap s p p.min_facings)) := by
  unfold try_place_product
  split_ifs with hcf hgt hcf2
  · obtain ⟨hh, hd⟩ := can_fit_dims hcf
    rw [place_success_iff gap s p f hh hd]
    constructor
    · intro h; exact Or.inl ⟨hcf, h⟩
    · rintro (⟨_, h⟩ | ⟨hne, _⟩)
      · exact h
      · rw [hcf] at hne; cases hne
  · obtain ⟨hh, hd⟩ := can_fit_dims hcf2
    rw [place_success_iff gap s p p.min_facings hh hd]
    have hcf3 : s.can_fit_product p f = false := Bool.eq_false_iff.mpr hcf
    constructor
    · rintro (hsp | ⟨_, habs, _⟩)
      · exact Or.inr ⟨hcf3, hgt, hcf2, hsp⟩
      · exact absurd habs (or1_not_lt _)
    · rintro (⟨hc, _⟩ | ⟨_, _, _, hsp⟩)
      · rw [hc] at hcf3; cases hcf3
      · exact Or.inl hsp
  · have hcf3 : s.can_fit_product p f = false := Bool.eq_false_iff.mpr hcf
    have hcf4 : s.can_fit_product p p.min_facings = false := Bool.eq_false_iff.mpr hcf2
    constructor
    · intro hc; simp at hc
    · rintro (⟨hc, _⟩ | ⟨_, _, hc, _⟩)
      · rw [hc] at hcf3; cases hcf3
      · rw [hc] at hcf4; cases hcf4
  · have hcf3 : s.can_fit_product p f = false := Bool.eq_false_iff.mpr hcf
    constructor
    · intro hc; simp at hc
    · rintro (⟨hc, _⟩ | ⟨_, hlt, _, _⟩)
      · rw [hc] at hcf3; cases hcf3
      · exact absurd hlt hgt

/-! ## C6: bump-out in the sales_velocity strategy -/

theorem mem_eraseProduct_of_mem {l : List Product} {a b : Product} (h : a ∈ l) :
    a ∈ eraseProduct l b ∨ a = b := by
  induction l with
  | nil => simp at h
  | cons q qs ih =>
    rcases List.mem_cons.mp h with rfl | h2
    · unfold eraseProduct
      split_ifs with he
      · exact Or.inr he
      · exact Or.inl (List.mem_cons_self _ _)
    · unfold eraseProduct
      split_ifs with he
      · exact Or.inl h2
      · rcases ih h2 with h3 | h3
        · exact Or.inl (List.mem_cons_of_mem _ h3)
        · exact Or.inr h3

theorem candidates_velocity_lt {placed : List Product} {vNew : ℚ}
    {positions : List ShelfPosition} :
    ∀ c ∈ lowerVelocityCandidates placed vNew positions, c.2.sales_velocity < vNew := by
  intro c hc
  obtain ⟨pos, _, hf⟩ := List.mem_filterMap.mp hc
  cases hfp : findPlaced placed pos.product_id with
  | none => rw [hfp] at hf; cases hf
  | some q =>
    rw [hfp] at hf
    dsimp only at hf
    split_ifs at hf with hv
    · obtain rfl : (pos, q) = c := Option.some.injEq _ _ ▸ hf
      exact hv

theorem bumpLoop_mem {gap : ℚ} {newP : Product} :
    ∀ (cands : List (ShelfPosition × Product)) (s : Shelf) (placed : List Product),
      (∀ c ∈ cands, c.2.sales_velocity < newP.sales_velocity) →
      ∀ q ∈ placed,
        q ∈ (bumpLoop gap newP s placed cands).2.2 ∨
          q.sales_velocity < newP.sales_velocity := by
  intro cands
  induction cands with
  | nil => intro s placed _ q hq; exact Or.inl hq
  | cons c rest ih =>
    intro s placed hlt q hq
    obtain ⟨pos, cp⟩ := c
    have hcp : cp.sales_velocity < newP.sales_velocity :=
      hlt (pos, cp) (List.mem_cons_self _ _)
    have hlt2 : ∀ c ∈ rest, c.2.sales_velocity < newP.sales_velocity :=
      fun c hc => hlt c (List.mem_cons_of_mem _ hc)
    simp only [bumpLoop]
    rcases mem_eraseProduct_of_mem hq (b := cp) with h1 | h1
    · cases htp : try_place_product gap
          { s with positions := erasePos s.positions pos } newP 1 with
      | mk b s2 =>
        cases b
        · dsimp only
          exact ih _ _ hlt2 q (List.mem_append_left _ h1)
        · exact Or.inl h1
    · subst h1
      cases htp : try_place_product gap
          { s with positions := erasePos s.positions pos } newP 1 with
      | mk b s2 =>
        cases b
        · dsimp only
          exact ih _ _ hlt2 q (List.mem_append_right _ (List.mem_singleton_self _))
        · exact Or.inr hcp

theorem bumpShelves_mem {gap : ℚ} {newP : Product} :
    ∀ (shelves : List Shelf) (placed : List Product) (q : Product), q ∈ placed →
      q ∈ (bumpShelves gap newP shelves placed).2.2 ∨
        q.sales_velocity < newP.sales_velocity := by
  intro shelves
  induction shelves with
  | nil => intro placed q hq; exact Or.inl hq
  | cons s rest ih =>
    intro placed q hq
    have hlt : ∀ c ∈ sortCandidatesByVelocity
        (lowerVelocityCandidates placed newP.sales_velocity s.positions),
        c.2.sales_velocity < newP.sales_velocity :=
      fun c hc => candidates_velocity_lt c (mem_stableSortBy.mp hc)
    have hres := @bumpLoop_mem gap newP _ s placed hlt q hq
    simp only [bumpShelves]
    cases hbl : bumpLoop gap newP s placed (sortCandidatesByVelocity
        (lowerVelocityCandidates placed newP.sales_velocity s.positions)) with
    | mk b r2 =>
      obtain ⟨s1, placed1⟩ := r2
      rw [hbl] at hres
      cases b
      · dsimp only
        rcases hres with h1 | h1
        · exact ih placed1 q h1
        · exact Or.inr h1
      · exact hres

/-- C6 counterexample: on a shelf holding A [2,30], B [32,60], C [62,90]
(velocities 5, 1, 5) the engine bumps for N (width 40, velocity 10).  The
removal of B frees interior space, but the attempted restore re-places B
at the end of the shelf, where it does not fit, so B is returned to
products_placed without being restored to any shelf — contradicting the
claim that a failed attempt restores the removed product to its shelf
before the next candidate is tried. -/
theorem bump_out_restore_counterexample :
    (force_place_high_priority_product 2 pN [c6Shelf] [pA, pB, pC]).1 = true ∧
    pB ∈ (force_place_high_priority_product 2 pN [c6Shelf] [pA, pB, pC]).2.2 ∧
    (∀ s ∈ (force_place_high_priority_product 2 pN [c6Shelf] [pA, pB, pC]).2.1,
      ∀ pos ∈ s.positions, pos.product_id ≠ pB.product_id) := by decide

/-- C6 (amended): only already-placed products with strictly lower sales
velocity are bump-out candidates, tried lowest first, and a failed attempt
returns the removed product to products_placed while merely attempting to
re-place it at the end of the shelf (which may fail or relocate it).
Consequently a product is never dropped from products_placed by a product
of equal or lower sales velocity: every product of the incoming placed
list either survives in the resulting placed list or had strictly lower
sales velocity than the newly placed product. -/
theorem bump_out_monotonicity (gap : ℚ) (newP : Product) (shelves : List Shelf)
    (placed : List Product) :
    ∀ q ∈ placed,
      q ∈ (force_place_high_priority_product gap newP shelves placed).2.2 ∨
        q.sales_velocity < newP.sales_velocity := by
  intro q hq
  unfold force_place_high_priority_product
  cases hpf : placeFirstFit gap newP 1 shelves with
  | some shelves1 => exact Or.inl hq
  | none => exact bumpShelves_mem shelves placed q hq

/-- Witness for C6 (amended) on the concrete bump-out state. -/
theorem bump_out_monotonicity_witness :
    pA ∈ ([pA, pB, pC] : List Product) ∧
    (pA ∈ (force_place_high_priority_product 2 pN [c6Shelf] [pA, pB, pC]).2.2 ∨
      pA.sales_velocity < pN.sales_velocity) :=
  ⟨List.mem_cons_self _ _,
    bump_out_monotonicity 2 pN [c6Shelf] [pA, pB, pC] pA (List.mem_cons_self _ _)⟩

/-! ## C7: split-bundle placement -/

theorem splitGo_warnings (gap : ℚ) (bundle : List Product) :
    ∀ (order : List ℕ) (shs : List Shelf) (ws : List String),
      ((splitGo gap bundle order shs ws).1 = true →
        ∃ s1 s2 : Shelf, |s2.y_position - (s1.y_position + s1.height)| < 10 ∧
          (splitGo gap bundle order shs ws).2.2 =
            ws ++ [splitWarning s1.shelf_id s2.shelf_id]) ∧
      ((splitGo gap bundle order shs ws).1 = false →
        (splitGo gap bundle order shs ws).2.2 = ws) := by
  intro order
  induction order with
  | nil =>
    intro shs ws
    exact ⟨fun h => absurd h (by simp [splitGo]), fun _ => rfl⟩
  | cons i rest ih =>
    intro shs ws
    cases rest with
    | nil => exact ⟨fun h => absurd h (by simp [splitGo]), fun _ => rfl⟩
    | cons j rest2 =>
      simp only [splitGo]
      cases hgi : shs.get? i with
      | none =>
        cases hgj : shs.get? j with
        | none => exact ih shs ws
        | some s2 => exact ih shs ws
      | some s1 =>
        cases hgj : shs.get? j with
        | none => exact ih shs ws
        | some s2 =>
          dsimp only
          split_ifs with h1 h2 h3
          · refine ⟨fun _ => ⟨s1, s2, h1, rfl⟩, fun hf => ?_⟩
            cases hf
          · exact ih _ ws
          · exact ih shs ws
          · exact ih shs ws

/-- C7 counterexample: the bundle [q1, q2, q3, q4] (widths 48, 48, 10, 10,
1 balanced facing each) is split into [q1, q2] and [q3, q4] over the
adjacent shelves.  The first half pre-fits by available width, q1 is
placed, q2 then fails the gap-aware span check; the split is reported
failed (no warning recorded) yet q1, q3 and q4 remain placed — the claimed
atomicity ("no member of the bundle remains placed by the split attempt")
does not hold. -/
theorem split_bundle_atomicity_counterexample :
    (place_split_bundle 2 [q1, q2, q3, q4] [shelfW, shelfW2] []).1 = false ∧
    (place_split_bundle 2 [q1, q2, q3, q4] [shelfW, shelfW2] []).2.2 = [] ∧
    (∃ s ∈ (place_split_bundle 2 [q1, q2, q3, q4] [shelfW, shelfW2] []).2.1,
      ∃ pos ∈ s.positions, pos.product_id = q1.product_id) := by decide

/-- C7 (amended): the split search walks consecutive shelf pairs in
vertical order and commits — returns success and appends exactly one
warning recording the split, for a vertically adjacent pair (gap < 10) —
only when both halves place successfully; when it fails no warning is
appended, but members of the bundle already placed during a failed
attempt are not rolled back and remain placed. -/
theorem split_bundle_commit_spec (gap : ℚ) (bundle : List Product)
    (shelves : List Shelf) (ws : List String) :
    ((place_split_bundle gap bundle shelves ws).1 = true →
      ∃ s1 s2 : Shelf, |s2.y_position - (s1.y_position + s1.height)| < 10 ∧
        (place_split_bundle gap bundle shelves ws).2.2 =
          ws ++ [splitWarning s1.shelf_id s2.shelf_id]) ∧
    ((place_split_bundle gap bundle shelves ws).1 = false →
      (place_split_bundle gap bundle shelves ws).2.2 = ws) :=
  splitGo_warnings gap bundle (yOrder shelves) shelves ws

/-- Witness for C7 (amended): a successful split of [q3, q4] across the
two adjacent shelves appends exactly one warning. -/
theorem split_bundle_commit_spec_witness :
    (place_split_bundle 2 [q3, q4] [shelfW, shelfW2] []).1 = true ∧
    (∃ s1 s2 : Shelf, |s2.y_position - (s1.y_position + s1.height)| < 10 ∧
      (place_split_bundle 2 [q3, q4] [shelfW, shelfW2] []).2.2 =
        [] ++ [splitWarning s1.shelf_id s2.shelf_id]) :=
  ⟨by decide, (split_bundle_commit_spec 2 [q3, q4] [shelfW, shelfW2] []).1 (by decide)⟩

/-! ## C9: fatal error when filtering leaves no products -/

/-- C9: for every product list and store, if the store's filtering rules
leave no candidate products, `create_planogram` aborts with the fatal
OptimizationError whose message carries the no-products-after-filtering
cause, instead of returning a result; the strategy's optimize step is
never invoked (the outcome is the same for every optimize function), so no
placement is attempted. -/
theorem empty_filter_aborts {α : Type} (optA optB : List Product → Store → α)
    (st : Store) (products : List Product)
    (h : filter_products_by_rules st.store_type st.rules products = []) :
    create_planogram optA st products =
      Except.error (RunError.optimizationFailed
        "Optimization failed: No products remain after filtering") ∧
    create_planogram optA st products = create_planogram optB st products := by
  unfold create_planogram
  rw [h]
  exact ⟨rfl, rfl⟩

/-- Witness for C9: a standard store whose minimum weekly-sales rule (10)
filters out the only product (weekly sales 5). -/
theorem empty_filter_aborts_witness :
    filter_products_by_rules storeC9.store_type storeC9.rules [pSlow] = [] ∧
    create_planogram (fun _ _ => (0 : ℕ)) storeC9 [pSlow] =
      Except.error (RunError.optimizationFailed
        "Optimization failed: No products remain after filtering") :=
  ⟨by decide,
    (empty_filter_aborts (fun _ _ => (0 : ℕ)) (fun _ _ => (1 : ℕ)) storeC9 [pSlow]
      (by decide)).1⟩

/-! ## C10: determinism

The only point where the engine consults anything beyond its explicit
inputs is Python's sort routines (`list.sort` / `sorted`); everything
else on every strategy's placement path is purely functional in the
model (insertion-ordered dicts, no set iteration, and `time.time` feeds
only the elapsed-time field, which is not part of the placement result).
Python documents its sorts as exactly "sorted and stable"; that contract
is `IsStableSortBy`, it has a unique solution
(`sorted_stable_unique`), the model's sorter satisfies it
(`pySortFns_ok`), and therefore the whole engine run — any strategy —
is the same function of its input for every compliant sort
implementation (`engine_determinism_all_strategies`). -/

section Orders

variable {β : Type} (lt : β → β → Bool)

end Orders

section SortSpec

variable {α β : Type} [DecidableEq β] (lt : β → β → Bool) (key : α → β)

end SortSpec

/-! Order facts for the three comparators the engine sorts by. -/

theorem bumpShelvesS_py (gap : ℚ) (p : Product) :
    ∀ (shelves : List Shelf) (placed : List Product),
    bumpShelvesS pySortFns gap p shelves placed = bumpShelves gap p shelves placed := by
  intro shelves
  induction shelves with
  | nil => intro _; rfl
  | cons s rest ih =>
    intro placed
    simp only [bumpShelvesS, bumpShelves]
    rw [show sortCandidatesByVelocityS pySortFns
        (lowerVelocityCandidates placed p.sales_velocity s.positions) =
      sortCandidatesByVelocity
        (lowerVelocityCandidates placed p.sales_velocity s.positions) from rfl]
    rcases hb : bumpLoop gap p s placed (sortCandidatesByVelocity
        (lowerVelocityCandidates placed p.sales_velocity s.positions)) with
      ⟨ok, s1, placed1⟩
    cases ok <;> simp only [hb, ih]

theorem force_placeS_py (gap : ℚ) (p : Product) (shelves : List Shelf)
    (placed : List Product) :
    force_place_high_priority_productS pySortFns gap p shelves placed =
      force_place_high_priority_product gap p shelves placed := by
  simp only [force_place_high_priority_productS, force_place_high_priority_product,
    bumpShelvesS_py]

theorem salesLoopS_py (gap : ℚ) (eyeIdx : List ℕ) :
    ∀ (ps : List Product) (shelves : List Shelf) (placed rejected : List Product)
      (ws : List String),
    salesLoopS pySortFns gap eyeIdx ps shelves placed rejected ws =
      salesLoop gap eyeIdx ps shelves placed rejected ws := by
  intro ps
  induction ps with
  | nil => intro _ _ _ _; rfl
  | cons p rest ih =>
    intro shelves placed rejected ws
    simp only [salesLoopS, salesLoop]
    rw [show utilOrderS pySortFns shelves eyeIdx = utilOrder shelves eyeIdx from rfl]
    cases tryOrderAt1 gap p shelves (utilOrder shelves eyeIdx) with
    | some shelves1 => simp only [ih]
    | none =>
      rw [force_placeS_py]
      rcases force_place_high_priority_product gap p shelves placed with
        ⟨ok, shelves1, placed1⟩
      cases ok <;> simp only [ih]

theorem optimize_by_salesS_py_eq (gap : ℚ) (shelves : List Shelf)
    (products : List Product) :
    optimize_by_salesS pySortFns gap shelves products =
      optimize_by_sales gap shelves products := by
  simp only [optimize_by_salesS, optimize_by_sales]
  rw [show pySortFns.desc Product.sales_velocity products =
    sortBySalesVelocity products from rfl, salesLoopS_py]

end Planogram
